import Mathlib

/-!
Shallow embedding of the `ObjectPool<T>` class from `src/codes/pool/main.cpp`.

The C++ pool stores raw pointers `T*` in a `std::stack<T*>`, guarded by a
single mutex, with a `const int capacity` fixed at construction.  We model a
pointer as `Option A` (`none` is `nullptr`, `some a` is a non-null handle with
identity `a`), and the stack as a `List (Option A)` whose head is the stack
top.  Throwing operations are modelled as returning an `Except PoolError`
result alongside the (possibly unchanged) pool state: a C++ `throw` leaves the
object unmodified, which the returned state makes explicit.
-/

/-- The two exceptions the pool can throw: `std::runtime_error` on `Pop` of an
empty pool, and `std::invalid_argument` on `Push(nullptr)`. -/
inductive PoolError where
  | emptyPool
  | invalidArgument
deriving DecidableEq

/-- State of `ObjectPool<T>`: the `std::stack<T*> pool` (head = top) and the
`const int capacity`.  The mutex serialises operations and carries no data, so
it has no field here. -/
structure ObjectPool (A : Type) where
  pool : List (Option A)
  capacity : Int
deriving DecidableEq

/-- Constructor `explicit ObjectPool(int cap) : capacity(cap) \x7b\x7d` — stores
the given capacity (no validation) and leaves the stack empty. -/
def mkPool {A : Type} (cap : Int) : ObjectPool A :=
  { pool := [], capacity := cap }

/-- Accessor `int GetCapacity() const`: returns the capacity field. -/
def GetCapacity {A : Type} (p : ObjectPool A) : Int :=
  p.capacity

/-- Accessor `int GetCount()`: takes the lock and returns `pool.size()`. -/
def GetCount {A : Type} (p : ObjectPool A) : Nat :=
  p.pool.length

/-- Method `T* Pop()` — under the lock: if the stack is empty, throw
`std::runtime_error`; otherwise take `pool.top()`, `pool.pop()`, and return
the pointer.  The second component is the pool state after the call. -/
def Pop {A : Type} (p : ObjectPool A) : Except PoolError (Option A) × ObjectPool A :=
  match p.pool with
  | [] => (Except.error PoolError.emptyPool, p)
  | x :: rest => (Except.ok x, { pool := rest, capacity := p.capacity })

/-- Method `void Push(T* item)` — if `item == nullptr`, throw
`std::invalid_argument` (before taking the lock); otherwise, under the lock,
`pool.push(item)`.  The second component is the pool state after the call. -/
def Push {A : Type} (p : ObjectPool A) (item : Option A) :
    Except PoolError Unit × ObjectPool A :=
  match item with
  | none => (Except.error PoolError.invalidArgument, p)
  | some _ => (Except.ok (), { pool := item :: p.pool, capacity := p.capacity })

/-- Observable events of one `Push` call, in source order. -/
inductive Event where
  | lockAcquire
  | lockRelease
  | throwInvalid
  | stackPush
deriving DecidableEq

/-- The event trace of `Push(item)`, read off the body of `Push` in the
source: the `nullptr` check and `throw` come first, and only on the non-null
path is the `std::lock_guard` constructed (acquire), the stack pushed, and the
guard destroyed (release) at scope exit. -/
def PushEvents {A : Type} (item : Option A) : List Event :=
  match item with
  | none => [Event.throwInvalid]
  | some _ => [Event.lockAcquire, Event.stackPush, Event.lockRelease]

/-- One sequential client operation on the pool. -/
inductive Op (A : Type) where
  | take
  | give (item : Option A)

/-- Run a sequence of operations on a pool, counting the successful `give`
(Push) and `take` (Pop) calls.  Returns `(final state, gives, takes)`.
Failed calls (exceptions caught by the client) leave the state as the
operation returned it. -/
def runOps {A : Type} : ObjectPool A → List (Op A) → ObjectPool A × Nat × Nat
  | p, [] => (p, 0, 0)
  | p, Op.take :: rest =>
      match Pop p with
      | (Except.ok _, q) =>
          let r := runOps q rest
          (r.1, r.2.1, r.2.2 + 1)
      | (Except.error _, q) => runOps q rest
  | p, Op.give item :: rest =>
      match Push p item with
      | (Except.ok _, q) =>
          let r := runOps q rest
          (r.1, r.2.1 + 1, r.2.2)
      | (Except.error _, q) => runOps q rest

/-- Destructor `~ObjectPool()` — the loop that pops and deletes until the
stack is empty, modelled as the list of pointers it deletes, in the order it
deletes them (top of stack first). -/
def teardownDeletes {A : Type} : List (Option A) → List (Option A)
  | [] => []
  | x :: rest => x :: teardownDeletes rest

/-! ## Helper lemmas -/

/-- Draining the stack deletes exactly the stored pointers, in stack order. -/
theorem teardownDeletes_eq {A : Type} : ∀ l : List (Option A), teardownDeletes l = l
  | [] => rfl
  | x :: rest => by simp [teardownDeletes, teardownDeletes_eq rest]

/-- Size bookkeeping across any sequential run: final size plus successful
takes equals initial size plus successful gives. -/
theorem runOps_count {A : Type} (ops : List (Op A)) :
    ∀ p : ObjectPool A,
      GetCount (runOps p ops).1 + (runOps p ops).2.2 =
        GetCount p + (runOps p ops).2.1 := by
  induction ops with
  | nil => intro p; rfl
  | cons op rest ih =>
      intro p
      obtain ⟨l, cap⟩ := p
      cases op with
      | take =>
          cases l with
          | nil => simpa [runOps, Pop, GetCount] using ih ⟨[], cap⟩
          | cons x xs =>
              have := ih ⟨xs, cap⟩
              simp [runOps, Pop, GetCount] at this ⊢
              omega
      | give item =>
          cases item with
          | none => simpa [runOps, Push, GetCount] using ih ⟨l, cap⟩
          | some a =>
              have := ih ⟨some a :: l, cap⟩
              simp [runOps, Push, GetCount] at this ⊢
              omega

/-- No operation writes the capacity field. -/
theorem runOps_capacity {A : Type} (ops : List (Op A)) :
    ∀ p : ObjectPool A, (runOps p ops).1.capacity = p.capacity := by
  induction ops with
  | nil => intro p; rfl
  | cons op rest ih =>
      intro p
      obtain ⟨l, cap⟩ := p
      cases op with
      | take =>
          cases l with
          | nil => simpa [runOps, Pop] using ih ⟨[], cap⟩
          | cons x xs => simpa [runOps, Pop] using ih ⟨xs, cap⟩
      | give item =>
          cases item with
          | none => simpa [runOps, Push] using ih ⟨l, cap⟩
          | some a => simpa [runOps, Push] using ih ⟨some a :: l, cap⟩

/-- Repeated successful gives of a non-null pointer stack up on the store. -/
theorem runOps_replicate_give {A : Type} (a : A) :
    ∀ (n : Nat) (p : ObjectPool A),
      (runOps p (List.replicate n (Op.give (some a)))).1.pool =
        List.replicate n (some a) ++ p.pool
  | 0, p => rfl
  | n + 1, p => by
      have h := runOps_replicate_give a n ⟨some a :: p.pool, p.capacity⟩
      simp only [List.replicate_succ, runOps, Push]
      rw [h, ← List.singleton_append, ← List.append_assoc, ← List.replicate_succ']
      simp [List.replicate_succ]

/-- Every pointer in the store stays non-null across any sequential run,
since `Push` rejects `nullptr` and `Pop` only removes. -/
theorem runOps_allSome {A : Type} (ops : List (Op A)) :
    ∀ p : ObjectPool A, (∀ y ∈ p.pool, y.isSome = true) →
      ∀ x ∈ (runOps p ops).1.pool, x.isSome = true := by
  induction ops with
  | nil => intro p hp; exact hp
  | cons op rest ih =>
      intro p hp
      obtain ⟨l, cap⟩ := p
      cases op with
      | take =>
          cases l with
          | nil => simpa [runOps, Pop] using ih ⟨[], cap⟩ hp
          | cons x xs =>
              refine fun y hy => ih ⟨xs, cap⟩ (fun z hz => hp z ?_) y ?_
              · exact List.mem_cons_of_mem x hz
              · simpa [runOps, Pop] using hy
      | give item =>
          cases item with
          | none => simpa [runOps, Push] using ih ⟨l, cap⟩ hp
          | some a =>
              refine fun y hy => ih ⟨some a :: l, cap⟩ (fun z hz => ?_) y ?_
              · rcases List.mem_cons.mp hz with h | h
                · simp [h]
                · exact hp z h
              · simpa [runOps, Push] using hy

/-! ## Claim theorems -/

/-- Claim C1: for any pool and non-null items a, b, c, the three gives
`Push a`, `Push b`, `Push c` all succeed, and the three subsequent `Pop`
calls return c, then b, then a, restoring the original store — the stack is
strictly LIFO. -/
theorem claim_lifo_order {A : Type} (p : ObjectPool A) (a b c : A) :
    (Push p (some a)).1 = Except.ok () ∧
    (Push (Push p (some a)).2 (some b)).1 = Except.ok () ∧
    (Push (Push (Push p (some a)).2 (some b)).2 (some c)).1 = Except.ok () ∧
    (Pop (Push (Push (Push p (some a)).2 (some b)).2 (some c)).2).1 = Except.ok (some c) ∧
    (Pop (Pop (Push (Push (Push p (some a)).2 (some b)).2 (some c)).2).2).1 =
      Except.ok (some b) ∧
    (Pop (Pop (Pop (Push (Push (Push p (some a)).2 (some b)).2 (some c)).2).2).2).1 =
      Except.ok (some a) ∧
    (Pop (Pop (Pop (Push (Push (Push p (some a)).2 (some b)).2 (some c)).2).2).2).2 = p :=
  ⟨rfl, rfl, rfl, rfl, rfl, rfl, rfl⟩

/-- Claim C2: on a pool of size 0, `Pop` throws the empty-pool error and the
pool state is completely unchanged (in particular `GetCount` is still 0). -/
theorem claim_empty_pool_failure {A : Type} (p : ObjectPool A)
    (h : GetCount p = 0) :
    (Pop p).1 = Except.error PoolError.emptyPool ∧
    (Pop p).2 = p ∧
    GetCount (Pop p).2 = 0 := by
  have hl : p.pool = [] := List.length_eq_zero.mp h
  obtain ⟨l, cap⟩ := p
  simp only at hl
  subst hl
  exact ⟨rfl, rfl, rfl⟩

/-- Witness for C2 at the concrete empty pool `mkPool 3` over `Nat`. -/
theorem claim_empty_pool_failure_witness :
    (Pop (mkPool 3 : ObjectPool Nat)).1 = Except.error PoolError.emptyPool ∧
    (Pop (mkPool 3 : ObjectPool Nat)).2 = mkPool 3 ∧
    GetCount (Pop (mkPool 3 : ObjectPool Nat)).2 = 0 :=
  claim_empty_pool_failure (mkPool 3) rfl

/-- Claim C3: for every pool state, `Push nullptr` throws the
invalid-argument error, leaves the state (size and store) unchanged, and its
event trace fires the throw without ever acquiring the lock. -/
theorem claim_invalid_give_rejected {A : Type} (p : ObjectPool A) :
    (Push p none).1 = Except.error PoolError.invalidArgument ∧
    (Push p none).2 = p ∧
    GetCount (Push p none).2 = GetCount p ∧
    Event.lockAcquire ∉ PushEvents (A := A) none :=
  ⟨rfl, rfl, rfl, by simp [PushEvents]⟩

/-- Claim C4: `Push` of any non-null item succeeds on every pool state —
there is no capacity check — growing the store by one; consequently n
successful gives from a fresh pool of any capacity c yield size n, which for
n > c exceeds the capacity. -/
theorem claim_capacity_advisory {A : Type} (p : ObjectPool A) (a : A) :
    (Push p (some a)).1 = Except.ok () ∧
    (Push p (some a)).2.pool = some a :: p.pool ∧
    GetCount (Push p (some a)).2 = GetCount p + 1 ∧
    ∀ (c : Int) (n : Nat),
      GetCount (runOps (mkPool (A := A) c) (List.replicate n (Op.give (some a)))).1 = n := by
  refine ⟨rfl, rfl, rfl, fun c n => ?_⟩
  show (runOps (mkPool (A := A) c) (List.replicate n (Op.give (some a)))).1.pool.length = n
  rw [runOps_replicate_give]
  simp [mkPool]

/-- Claim C5: a successful `Push x` followed immediately by `Pop` returns
exactly the pointer `x` that was pushed (same identity) and restores the
pre-push state. -/
theorem claim_round_trip_identity {A : Type} (p q : ObjectPool A) (x : A)
    (h : Push p (some x) = (Except.ok (), q)) :
    Pop q = (Except.ok (some x), p) := by
  have hq : q = { pool := some x :: p.pool, capacity := p.capacity } := by
    have h2 := congrArg Prod.snd h
    simpa [Push] using h2.symm
  subst hq
  rfl

/-- Witness for C5: pushing pointer 5 into the fresh pool `mkPool 1` and
popping returns pointer 5 and the fresh pool. -/
theorem claim_round_trip_identity_witness :
    Pop ({ pool := [some 5], capacity := 1 } : ObjectPool Nat) =
      (Except.ok (some 5), mkPool 1) :=
  claim_round_trip_identity (mkPool 1) { pool := [some 5], capacity := 1 } 5 rfl

/-- Claim C6: from a fresh pool, after any sequential run of operations the
size equals successful gives minus successful takes (stated additively); and
each successful `Pop` decreases the size by exactly one while each successful
`Push` increases it by exactly one. -/
theorem claim_size_accounting {A : Type} :
    (∀ (c : Int) (ops : List (Op A)),
      GetCount (runOps (mkPool (A := A) c) ops).1 + (runOps (mkPool (A := A) c) ops).2.2 =
        (runOps (mkPool (A := A) c) ops).2.1) ∧
    (∀ (p q : ObjectPool A) (x : Option A),
      Pop p = (Except.ok x, q) → GetCount q + 1 = GetCount p) ∧
    (∀ (p q : ObjectPool A) (item : Option A),
      Push p item = (Except.ok (), q) → GetCount q = GetCount p + 1) := by
  refine ⟨fun c ops => ?_, fun p q x h => ?_, fun p q item h => ?_⟩
  · simpa [GetCount, mkPool] using runOps_count ops (mkPool c)
  · obtain ⟨l, cap⟩ := p
    cases l with
    | nil => simp [Pop] at h
    | cons y ys =>
        have h2 := congrArg Prod.snd h
        simp [Pop] at h2
        simp [← h2, GetCount]
  · cases item with
    | none => simp [Push] at h
    | some a =>
        have h2 := congrArg Prod.snd h
        simp [Push] at h2
        simp [← h2, GetCount]

/-- Witness for C6 at concrete inputs: the run give 7, give 8, take from a
fresh pool of capacity 2, a concrete successful `Pop`, and a concrete
successful `Push`. -/
theorem claim_size_accounting_witness :
    (GetCount (runOps (mkPool (A := Nat) 2)
        [Op.give (some 7), Op.give (some 8), Op.take]).1 +
      (runOps (mkPool (A := Nat) 2)
        [Op.give (some 7), Op.give (some 8), Op.take]).2.2 =
      (runOps (mkPool (A := Nat) 2)
        [Op.give (some 7), Op.give (some 8), Op.take]).2.1) ∧
    (GetCount ({ pool := [], capacity := 2 } : ObjectPool Nat) + 1 =
      GetCount ({ pool := [some 3], capacity := 2 } : ObjectPool Nat)) ∧
    (GetCount ({ pool := [some 3], capacity := 2 } : ObjectPool Nat) =
      GetCount ({ pool := [], capacity := 2 } : ObjectPool Nat) + 1) :=
  ⟨claim_size_accounting.1 2 [Op.give (some 7), Op.give (some 8), Op.take],
   claim_size_accounting.2.1 { pool := [some 3], capacity := 2 }
     { pool := [], capacity := 2 } (some 3) rfl,
   claim_size_accounting.2.2 { pool := [], capacity := 2 }
     { pool := [some 3], capacity := 2 } (some 3) rfl⟩

/-- Claim C7: the destructor deletes exactly the k pointers currently in the
store, one each, in top-to-bottom order, and deletes nothing that is not in
the store (in particular no lent-out pointer). -/
theorem claim_teardown_containment {A : Type} (p : ObjectPool A) :
    teardownDeletes p.pool = p.pool ∧
    (teardownDeletes p.pool).length = GetCount p ∧
    (∀ x : Option A, x ∉ p.pool → x ∉ teardownDeletes p.pool) := by
  refine ⟨teardownDeletes_eq p.pool, ?_, fun x hx => ?_⟩
  · rw [teardownDeletes_eq p.pool]; rfl
  · rw [teardownDeletes_eq p.pool]; exact hx

/-- Witness for C7 at the concrete pool holding one pointer 0: the lent-out
pointer 1 is not deleted by teardown. -/
theorem claim_teardown_containment_witness :
    (some 1 : Option Nat) ∉
      teardownDeletes ({ pool := [some 0], capacity := 5 } : ObjectPool Nat).pool :=
  (claim_teardown_containment { pool := [some 0], capacity := 5 }).2.2
    (some 1) (by decide)

/-- Claim C8: the capacity returned by `GetCapacity` is the construction
argument after any sequence of operations, and neither `Pop` nor `Push` ever
modifies the capacity field. -/
theorem claim_capacity_immutable {A : Type} :
    (∀ (c : Int) (ops : List (Op A)),
      GetCapacity (runOps (mkPool (A := A) c) ops).1 = c) ∧
    (∀ p : ObjectPool A, GetCapacity (Pop p).2 = GetCapacity p) ∧
    (∀ (p : ObjectPool A) (item : Option A),
      GetCapacity (Push p item).2 = GetCapacity p) := by
  refine ⟨fun c ops => ?_, fun p => ?_, fun p item => ?_⟩
  · simpa [GetCapacity, mkPool] using runOps_capacity ops (mkPool c)
  · obtain ⟨l, cap⟩ := p
    cases l <;> rfl
  · cases item <;> rfl

/-- Claim C9: construction succeeds for every integer capacity, including
zero and negative values, and yields an empty store with the given
capacity. -/
theorem claim_construction_total {A : Type} (c : Int) :
    GetCount (mkPool (A := A) c) = 0 ∧ GetCapacity (mkPool (A := A) c) = c :=
  ⟨rfl, rfl⟩

/-- Claim C10: every pointer in the store of any pool reachable from a fresh
pool by sequential operations is non-null, and a successful `Pop` from a pool
whose store holds only non-null pointers never returns a null pointer. -/
theorem claim_no_null_in_store {A : Type} :
    (∀ (c : Int) (ops : List (Op A)) (x : Option A),
      x ∈ (runOps (mkPool (A := A) c) ops).1.pool → x.isSome = true) ∧
    (∀ (p q : ObjectPool A) (x : Option A),
      (∀ y ∈ p.pool, y.isSome = true) →
      Pop p = (Except.ok x, q) → x.isSome = true) := by
  refine ⟨fun c ops x hx => ?_, fun p q x hall h => ?_⟩
  · exact runOps_allSome ops (mkPool c) (by simp [mkPool]) x hx
  · obtain ⟨l, cap⟩ := p
    cases l with
    | nil => simp [Pop] at h
    | cons y ys =>
        have h1 := congrArg Prod.fst h
        simp [Pop] at h1
        rw [← h1]
        exact hall y (List.mem_cons_self y ys)

/-- Witness for C10: pointer membership in the store reached by the run give
7, give 8 from a fresh pool is non-null, and the concrete successful `Pop`
returns a non-null pointer. -/
theorem claim_no_null_in_store_witness :
    ((some 7 : Option Nat).isSome = true) ∧ ((some 3 : Option Nat).isSome = true) :=
  ⟨claim_no_null_in_store.1 2 [Op.give (some 7)] (some 7) (by decide),
   claim_no_null_in_store.2 { pool := [some 3], capacity := 2 }
     { pool := [], capacity := 2 } (some 3) (by decide) rfl⟩
